import Mathlib

/-!
RedPaper: the gated wallpaper pipeline of `main.go`.

A shallow embedding of the Go program and the properties of its pipeline:
candidate selection, file naming, the size check of the compressor, the
24-hour gate with its state file, and the orchestration in `Run` and `main`.

Conventions of the embedding:
* Go strings that carry text (URLs, titles, paths) are lists of Unicode code
  points; the feed decoder only produces valid UTF-8.  File contents are bytes.
* The Unicode lower-casing table behind `strings.ToLower` is a parameter
  `lower : Char → Char`; on ASCII input Go's fast path is `Char.toLower`.
* `int64` arithmetic is integer arithmetic wrapped by `wrapInt64`; `time.Time`
  is the pair of its wall-clock seconds and nanoseconds.
* Everything outside the program (HTTP, clock, file creation, image codec, the
  desktop) answers through `Env`; the files are explicit state.
* Errors are the message prefixes of the `fmt.Errorf` calls; the text of a
  wrapped operating-system or library error is abbreviated.
-/

namespace RedPaperMain

deriving instance DecidableEq for Except

/-! ## Feed entries and candidate selection -/

/-- The Go struct `PostData` (one decoded feed entry). -/
structure PostData where
  Title : List Char
  URL : List Char
  Score : Int
  deriving DecidableEq, Repr

/-- The Go struct `WallpaperData`. -/
structure WallpaperData where
  URL : List Char
  Title : List Char
  Score : Int
  deriving DecidableEq, Repr

/-- Go `strings.HasSuffix`: `len(s) >= len(suffix) && s[len(s)-len(suffix):] == suffix`. -/
def HasSuffix (s suffix : List Char) : Bool :=
  decide (suffix.length ≤ s.length) && (s.drop (s.length - suffix.length) == suffix)

/-- Go `strings.ToLower`, rune by rune with the case table `lower`. -/
def ToLower (lower : Char → Char) (s : List Char) : List Char :=
  s.map lower

/-- The slice literal `imageExtensions` of `IsImageURL`. -/
def imageExtensions : List (List Char) :=
  [['.', 'j', 'p', 'g'], ['.', 'j', 'p', 'e', 'g'], ['.', 'p', 'n', 'g'],
   ['.', 'b', 'm', 'p'], ['.', 'g', 'i', 'f']]

/-- The `for _, ext := range imageExtensions` loop of `IsImageURL`. -/
def anySuffix (lowerURL : List Char) : List (List Char) → Bool
  | [] => false
  | ext :: rest => if HasSuffix lowerURL ext then true else anySuffix lowerURL rest

/-- The method `IsImageURL`. -/
def IsImageURL (lower : Char → Char) (url : List Char) : Bool :=
  anySuffix (ToLower lower url) imageExtensions

/-- The selection loop of `GetTopWallpaper` over `redditResp.Data.Children`. -/
def selectFirstImage (lower : Char → Char) : List PostData → Except String WallpaperData
  | [] => .error "no suitable wallpaper found"
  | postData :: rest =>
    if IsImageURL lower postData.URL then
      .ok { URL := postData.URL, Title := postData.Title, Score := postData.Score }
    else selectFirstImage lower rest

/-- What the HTTP client and the JSON decoder hand to `GetTopWallpaper`. -/
inductive FeedResponse where
  | requestInvalid (err : String)
  | transportFailed (err : String)
  | status (code : Nat) (decoded : Except String (List PostData))

/-- The method `GetTopWallpaper`, given the collaborator's response. -/
def GetTopWallpaper (lower : Char → Char) : FeedResponse → Except String WallpaperData
  | .requestInvalid err => .error ("error creating request: " ++ err)
  | .transportFailed err => .error ("error making request: " ++ err)
  | .status code decoded =>
    if code ≠ 200 then .error ("HTTP error: " ++ toString code)
    else match decoded with
      | .error err => .error ("error decoding JSON: " ++ err)
      | .ok children => selectFirstImage lower children

/-! ## File names: sanitising titles and choosing the extension -/

/-- Bytes of a Go string or of a file; paths are byte strings. -/
abbrev Bytes := List Nat

/-- UTF-8 encoding of one rune, as Go stores it in a string. -/
def utf8EncodeRune (c : Char) : Bytes :=
  let v := c.toNat
  if v < 128 then [v]
  else if v < 2048 then [192 + v / 64, 128 + v % 64]
  else if v < 65536 then [224 + v / 4096, 128 + (v / 64) % 64, 128 + v % 64]
  else [240 + v / 262144, 128 + (v / 4096) % 64, 128 + (v / 64) % 64, 128 + v % 64]

/-- The bytes of a Go string given as runes. -/
def utf8 (s : List Char) : Bytes :=
  s.flatMap utf8EncodeRune

/-- The character class of the regexp in `sanitizeFilename`: the nine runes
`<`, `>`, `:`, double quote (34), `/`, backslash (92), `|`, `?`, `*`. -/
def invalidFilenameChars : List Char :=
  ['<', '>', ':', Char.ofNat 34, '/', Char.ofNat 92, '|', '?', '*']

/-- `reg.ReplaceAllString(filename, "")`: every match of the one-rune class is
replaced by the empty string, the runes between matches are copied. -/
def replaceAllInvalid : List Char → List Char
  | [] => []
  | c :: cs =>
    if invalidFilenameChars.contains c then replaceAllInvalid cs
    else c :: replaceAllInvalid cs

/-- Go `unicode.IsSpace`: the Latin-1 cases and the `White_Space` table. -/
def isSpace (c : Char) : Bool :=
  let r := c.toNat
  if r ≤ 255 then
    r == 9 || r == 10 || r == 11 || r == 12 || r == 13 || r == 32 || r == 133 || r == 160
  else
    r == 5760 || (8192 ≤ r && r ≤ 8202) || r == 8232 || r == 8233 || r == 8239 ||
      r == 8287 || r == 12288

/-- Go `strings.TrimLeftFunc(s, unicode.IsSpace)`. -/
def trimLeftSpace : List Char → List Char
  | [] => []
  | c :: cs => if isSpace c then trimLeftSpace cs else c :: cs

/-- Go `strings.TrimRightFunc(s, unicode.IsSpace)`. -/
def trimRightSpace (s : List Char) : List Char :=
  (trimLeftSpace s.reverse).reverse

/-- Go `strings.TrimSpace`. -/
def TrimSpace (s : List Char) : List Char :=
  trimRightSpace (trimLeftSpace s)

/-- The default token of `sanitizeFilename`. -/
def defaultToken : List Char := ['r', 'e', 'd', 'p', 'a', 'p', 'e', 'r']

/-- The method `sanitizeFilename`. -/
def sanitizeFilename (filename : List Char) : List Char :=
  let clean := replaceAllInvalid filename
  let clean := TrimSpace clean
  if clean = [] then defaultToken else clean

/-- Go `strings.Split(s, sep)` for a one-rune separator. -/
def Split (sep : Char) : List Char → List (List Char)
  | [] => [[]]
  | c :: cs =>
    if c = sep then [] :: Split sep cs
    else match Split sep cs with
      | [] => [[c]]
      | part :: parts => (c :: part) :: parts

/-- The helper `contains`. -/
def contains (slice : List (List Char)) (item : List Char) : Bool :=
  match slice with
  | [] => false
  | s :: rest => if s = item then true else contains rest item

/-- The slice literal passed to `contains` in `DownloadImage`. -/
def downloadExtensions : List (List Char) :=
  [['j', 'p', 'g'], ['j', 'p', 'e', 'g'], ['p', 'n', 'g'], ['b', 'm', 'p']]

/-- The "Get file extension" block of `DownloadImage`. -/
def fileExtension (lower : Char → Char) (url : List Char) : List Char :=
  let fileExt := ['j', 'p', 'g']
  let parts := Split '.' url
  if parts.length > 1 then
    let ext := ToLower lower (parts.getLastD [])
    if contains downloadExtensions ext then ext else fileExt
  else fileExt

/-! ## Machine integers, `time` and `strconv` -/

/-- Two's-complement wrap-around of `int64` arithmetic. -/
def wrapInt64 (x : Int) : Int :=
  (x + 9223372036854775808) % 18446744073709551616 - 9223372036854775808

/-- Go `/` on integers truncates toward zero. -/
def quoT (a b : Int) : Int :=
  if 0 ≤ a then a / b else -((-a) / b)

/-- Go `%` on integers: the remainder of the truncated division. -/
def remT (a b : Int) : Int :=
  a - b * quoT a b

/-- `time.Second` in nanoseconds. -/
def Second : Int := 1000000000

/-- `24*time.Hour` in nanoseconds. -/
def day : Int := 24 * (3600 * Second)

/-- `minDuration` of package `time`. -/
def minDuration : Int := -9223372036854775808

/-- `maxDuration` of package `time`. -/
def maxDuration : Int := 9223372036854775807

/-- `unixToInternal` of package `time`: seconds from year 1 to 1970. -/
def unixToInternal : Int := 62135596800

/-- A `time.Time` read on the wall clock: `sec` is what `t.sec()` returns
(seconds since January 1, year 1), `nsec` what `t.nsec()` returns. -/
structure Time where
  sec : Int
  nsec : Int
  deriving DecidableEq, Repr

/-- The zero value `time.Time{}`. -/
def Time.zero : Time := { sec := 0, nsec := 0 }

/-- Go `time.Unix(sec, 0)`. -/
def Time.ofUnix (sec : Int) : Time :=
  { sec := wrapInt64 (sec + unixToInternal), nsec := 0 }

/-- Go `t.Unix()`. -/
def Time.Unix (t : Time) : Int :=
  wrapInt64 (t.sec - unixToInternal)

/-- Go `t.IsZero()`. -/
def Time.IsZero (t : Time) : Bool :=
  t.sec == 0 && t.nsec == 0

/-- Go `t.addSec(d)` for a time without monotonic reading. -/
def Time.addSec (t : Time) (d : Int) : Time :=
  let sum := wrapInt64 (t.sec + d)
  if (decide (sum > t.sec)) == (decide (d > 0)) then { t with sec := sum }
  else if d > 0 then { t with sec := 9223372036854775807 }
  else { t with sec := -9223372036854775807 }

/-- Go `t.Add(d)` for a time without monotonic reading. -/
def Time.Add (t : Time) (d : Int) : Time :=
  let dsec := quoT d 1000000000
  let nsec := t.nsec + remT d 1000000000
  if nsec ≥ 1000000000 then ({ t with nsec := nsec - 1000000000 } : Time).addSec (dsec + 1)
  else if nsec < 0 then ({ t with nsec := nsec + 1000000000 } : Time).addSec (dsec - 1)
  else ({ t with nsec := nsec } : Time).addSec dsec

/-- Go `t.Before(u)` on wall-clock readings. -/
def Time.Before (t u : Time) : Bool :=
  decide (t.sec < u.sec) || (t.sec == u.sec && decide (t.nsec < u.nsec))

/-- Go `t.Sub(u)` on wall-clock readings (a time built by `time.Unix` has no
monotonic reading, so `time.Since` takes this path). -/
def Time.Sub (t u : Time) : Int :=
  let d := wrapInt64 (wrapInt64 (wrapInt64 (t.sec - u.sec) * Second) + (t.nsec - u.nsec))
  if u.Add d = t then d
  else if t.Before u then minDuration
  else maxDuration

/-- The digit loop of `strconv.ParseUint(s, 10, 64)`. -/
def parseUintLoop : Bytes → Nat → Except String Nat
  | [], n => .ok n
  | c :: cs, n =>
    if 48 ≤ c ∧ c ≤ 57 then
      if n ≥ 1844674407370955162 then .error "value out of range"
      else if n * 10 + (c - 48) ≥ 18446744073709551616 then .error "value out of range"
      else parseUintLoop cs (n * 10 + (c - 48))
    else .error "invalid syntax"

/-- Go `strconv.ParseUint(s, 10, 64)`. -/
def ParseUint (s : Bytes) : Except String Nat :=
  if s = [] then .error "invalid syntax" else parseUintLoop s 0

/-- The range check of `strconv.ParseInt` after the sign is stripped. -/
def parseIntSigned (neg : Bool) (s : Bytes) : Except String Int :=
  match ParseUint s with
  | .error e => .error e
  | .ok un =>
    if !neg && decide (un ≥ 9223372036854775808) then .error "value out of range"
    else if neg && decide (un > 9223372036854775808) then .error "value out of range"
    else if neg then .ok (-(un : Int)) else .ok (un : Int)

/-- Go `strconv.ParseInt(s, 10, 64)`; 43 is `+`, 45 is `-`. -/
def ParseInt (s : Bytes) : Except String Int :=
  match s with
  | [] => .error "invalid syntax"
  | c :: rest =>
    if c = 43 then parseIntSigned false rest
    else if c = 45 then parseIntSigned true rest
    else parseIntSigned false s

/-- The digit loop of `strconv.formatBits` in base 10, most significant digit
first; a `uint64` has at most 20 digits. -/
def formatBitsLoop : Nat → Nat → Bytes → Bytes
  | 0, u, acc => (48 + u % 10) :: acc
  | fuel + 1, u, acc =>
    if u ≥ 10 then formatBitsLoop fuel (u / 10) ((48 + u % 10) :: acc)
    else (48 + u) :: acc

/-- Go `strconv.FormatInt(i, 10)`. -/
def FormatInt (i : Int) : Bytes :=
  if i < 0 then 45 :: formatBitsLoop 20 i.natAbs []
  else formatBitsLoop 20 i.toNat []

/-- Go `bufio.dropCR`. -/
def dropCR (data : Bytes) : Bytes :=
  if data.getLast? = some 13 then data.dropLast else data

/-- The first `scanner.Scan()` of a `bufio.Scanner` with `ScanLines` over the
whole file: `none` when `Scan` returns false (no data, or no line end within
the 64 KiB token buffer). -/
def scanFirstLine (data : Bytes) : Option Bytes :=
  if data = [] then none
  else
    let line := data.takeWhile (fun b => b != 10)
    if line.length < data.length then
      if line.length ≤ 65535 then some (dropCR line) else none
    else if data.length ≤ 65535 then some (dropCR data) else none

/-! ## Files, collaborators and the stages of the pipeline

Paths are the file names as the operating system sees them, rune by rune;
file contents are bytes. -/

/-- A regular file: its bytes, and whether `os.Open` succeeds on it. -/
structure File where
  data : Bytes
  readable : Bool
  deriving DecidableEq, Repr

/-- The files on disk, by path. -/
abbrev FS := List (List Char × File)

/-- Go `os.Stat`: `none` is the not-exist error. -/
def FS.stat (fs : FS) (path : List Char) : Option File :=
  match fs with
  | [] => none
  | (q, f) :: rest => if q = path then some f else FS.stat rest path

/-- The file at `path` is created or replaced by `f`; all others are kept. -/
def FS.put (fs : FS) (path : List Char) (f : File) : FS :=
  match fs with
  | [] => [(path, f)]
  | (q, g) :: rest => if q = path then (path, f) :: rest else (q, g) :: FS.put rest path f

/-- The path separator of the target platform, the backslash. -/
def sep : Char := Char.ofNat 92

/-- Go `filepath.Join(dir, name)` for a cleaned directory and a name of one
component: the two joined by one separator. -/
def Join (dir name : List Char) : List Char :=
  if dir = [] then name else dir ++ sep :: name

/-- The loop of Go `filepath.Ext`, from the last byte backwards. -/
def extLoop : List Char → List Char → List Char
  | [], _ => []
  | c :: before, acc =>
    if c = sep ∨ c = '/' then []
    else if c = '.' then c :: acc
    else extLoop before (c :: acc)

/-- Go `filepath.Ext`. -/
def Ext (path : List Char) : List Char :=
  extLoop path.reverse []

/-- Go `strings.TrimSuffix`. -/
def TrimSuffix (s suffix : List Char) : List Char :=
  if HasSuffix s suffix then s.take (s.length - suffix.length) else s

/-- The receiver struct `RedPaper` (the HTTP client is in the environment). -/
structure RedPaper where
  Subreddit : List Char
  DownloadFolder : List Char
  DataFolder : List Char

/-- The constant `MAX_WALLPAPER_SIZE`. -/
def MAX_WALLPAPER_SIZE : Nat := 16 * 1024 * 1024

/-- What the HTTP client answers to the image request: a transport error, or a
status with the body bytes that arrived and the read error that ended them. -/
inductive ImageResponse where
  | transportFailed (err : String)
  | status (code : Nat) (body : Bytes) (readErr : Option String)

/-- The answers of everything outside the program during one run. -/
structure Env where
  lower : Char → Char
  now : Time
  feed : FeedResponse
  image : ImageResponse
  today : List Char
  canCreate : List Char → Bool
  decode : Bytes → Option Bytes
  encode : Bytes → Bytes × Bool
  applyRet : Nat
  commitNow : Time
  writeOk : Bool

/-- The calls `Run` makes to the stage methods `GetTopWallpaper`, `DownloadImage`,
`compressImage`, `SetWallpaper` and `saveLastRunTime`. -/
inductive Event where
  | feedQuery
  | download (url : List Char)
  | compress (path : List Char)
  | apply (path : List Char)
  | commit
  deriving DecidableEq, Repr

/-- The slice `safeTitle[:50]`: the runes that fit whole in 50 bytes; the bytes
of a rune cut in the middle each read back as U+FFFD in a file name. -/
def truncateBytes : Nat → List Char → List Char
  | _, [] => []
  | n, c :: cs =>
    let k := (utf8EncodeRune c).length
    if k ≤ n then c :: truncateBytes (n - k) cs
    else List.replicate n (Char.ofNat 65533)

/-- The file name `DownloadImage` builds with `fmt.Sprintf("%s_%s.%s", ...)`. -/
def downloadFilename (env : Env) (wallpaper : WallpaperData) : List Char :=
  let fileExt := fileExtension env.lower wallpaper.URL
  let safeTitle := sanitizeFilename wallpaper.Title
  let safeTitle := if (utf8 safeTitle).length > 50 then truncateBytes 50 safeTitle else safeTitle
  env.today ++ '_' :: safeTitle ++ '.' :: fileExt

/-- The method `DownloadImage`: the returned path or the error, and the files
afterwards. -/
def DownloadImage (rwc : RedPaper) (env : Env) (fs : FS) (wallpaper : WallpaperData) :
    Except String (List Char) × FS :=
  match env.image with
  | .transportFailed err => (.error ("error downloading image: " ++ err), fs)
  | .status code body readErr =>
    if code ≠ 200 then (.error ("HTTP error downloading image: " ++ toString code), fs)
    else
      let filepath := Join rwc.DownloadFolder (downloadFilename env wallpaper)
      if !env.canCreate filepath then (.error "error creating file", fs)
      else
        let fs := fs.put filepath { data := body, readable := true }
        match readErr with
        | some err => (.error ("error saving image: " ++ err), fs)
        | none => (.ok filepath, fs)

/-- The suffix `"_compressed.jpg"`. -/
def compressedSuffix : List Char :=
  ['_', 'c', 'o', 'm', 'p', 'r', 'e', 's', 's', 'e', 'd', '.', 'j', 'p', 'g']

/-- The method `compressImage`. -/
def compressImage (env : Env) (fs : FS) (imagePath : List Char) :
    Except String (List Char) × FS :=
  match fs.stat imagePath with
  | none => (.error "error getting file info", fs)
  | some fileInfo =>
    if fileInfo.data.length ≤ MAX_WALLPAPER_SIZE then (.ok imagePath, fs)
    else if !fileInfo.readable then (.error "error opening image for compression", fs)
    else match env.decode fileInfo.data with
      | none => (.error "error decoding image", fs)
      | some img =>
        let compressedPath := TrimSuffix imagePath (Ext imagePath) ++ compressedSuffix
        if !env.canCreate compressedPath then (.error "error creating compressed file", fs)
        else
          let fs := fs.put compressedPath { data := (env.encode img).1, readable := true }
          if !(env.encode img).2 then (.error "error encoding compressed image", fs)
          else match fs.stat compressedPath with
            | none => (.error "error getting compressed file info", fs)
            | some _ => (.ok compressedPath, fs)

/-- The method `SetWallpaper`: the error, if any.  The conversion to UTF-16
fails on a NUL; the system call fails when it returns 0. -/
def SetWallpaper (env : Env) (imagePath : List Char) : Option String :=
  if imagePath.contains (Char.ofNat 0) then some "error converting path to UTF-16"
  else if env.applyRet = 0 then some "failed to set wallpaper"
  else none

/-- The name of the state file, `"last_run.txt"`. -/
def lastRunName : List Char :=
  ['l', 'a', 's', 't', '_', 'r', 'u', 'n', '.', 't', 'x', 't']

/-- The path `filepath.Join(rwc.DataFolder, "last_run.txt")`. -/
def timestampFile (rwc : RedPaper) : List Char :=
  Join rwc.DataFolder lastRunName

/-- The method `getLastRunTime`. -/
def getLastRunTime (rwc : RedPaper) (fs : FS) : Except String Time :=
  match fs.stat (timestampFile rwc) with
  | none => .ok Time.zero
  | some file =>
    if !file.readable then .error "error opening timestamp file"
    else match scanFirstLine file.data with
      | some timestampStr =>
        match ParseInt timestampStr with
        | .error err => .error ("error parsing timestamp: " ++ err)
        | .ok timestamp => .ok (Time.ofUnix timestamp)
      | none => .error "empty timestamp file"

/-- The method `saveLastRunTime`: the error, if any, and the files afterwards. -/
def saveLastRunTime (rwc : RedPaper) (env : Env) (fs : FS) : Option String × FS :=
  let timestamp := FormatInt env.commitNow.Unix
  if !env.canCreate (timestampFile rwc) then (some "error creating timestamp file", fs)
  else if !env.writeOk then
    (some "error writing timestamp", fs.put (timestampFile rwc) { data := [], readable := true })
  else (none, fs.put (timestampFile rwc) { data := timestamp, readable := true })

/-- The method `shouldRunWallpaperChange` at the instant `now`: the three
results `(shouldRun, remainingTime, err)`. -/
def shouldRunWallpaperChange (rwc : RedPaper) (now : Time) (fs : FS) :
    Bool × Int × Option String :=
  match getLastRunTime rwc fs with
  | .error err => (false, 0, some ("error getting last run time: " ++ err))
  | .ok lastRun =>
    if lastRun.IsZero then (true, 0, none)
    else
      let timeSinceLastRun := now.Sub lastRun
      let remainingTime := wrapInt64 (day - timeSinceLastRun)
      if timeSinceLastRun ≥ day then (true, 0, none)
      else (false, remainingTime, none)

/-! ## The orchestrator -/

/-- The outcome of `Run` or `forceRun`: the returned error, the files and the
desktop background afterwards, and the stage calls made. -/
structure RunResult where
  err : Option String
  fs : FS
  wallpaper : Option (List Char)
  trace : List Event

/-- The block `if err != nil { finalImagePath = imagePath }` after
`compressImage`: fall back to the original if compression fails. -/
def fallBack (compressed : Except String (List Char)) (imagePath : List Char) : List Char :=
  match compressed with
  | .error _ => imagePath
  | .ok finalImagePath => finalImagePath

/-- The stages after the gate, shared line for line by `Run` and `forceRun`:
feed query, download, compression with fall-back, apply, commit. -/
def runStages (rwc : RedPaper) (env : Env) (fs : FS) (wallpaper : Option (List Char)) :
    RunResult :=
  match GetTopWallpaper env.lower env.feed with
  | .error err =>
    { err := some ("error fetching wallpaper: " ++ err), fs := fs, wallpaper := wallpaper,
      trace := [.feedQuery] }
  | .ok wallpaperData =>
    match DownloadImage rwc env fs wallpaperData with
    | (.error err, fs1) =>
      { err := some ("error downloading image: " ++ err), fs := fs1, wallpaper := wallpaper,
        trace := [.feedQuery, .download wallpaperData.URL] }
    | (.ok imagePath, fs1) =>
      let compressed := compressImage env fs1 imagePath
      let finalImagePath := fallBack compressed.1 imagePath
      let fs2 := compressed.2
      let stages := [.feedQuery, .download wallpaperData.URL, .compress imagePath,
        .apply finalImagePath]
      match SetWallpaper env finalImagePath with
      | some err =>
        { err := some ("error setting wallpaper: " ++ err), fs := fs2, wallpaper := wallpaper,
          trace := stages }
      | none =>
        { err := none, fs := (saveLastRunTime rwc env fs2).2, wallpaper := some finalImagePath,
          trace := stages ++ [.commit] }

/-- The method `Run`. -/
def Run (rwc : RedPaper) (env : Env) (fs : FS) (wallpaper : Option (List Char)) : RunResult :=
  let gate := shouldRunWallpaperChange rwc env.now fs
  let shouldRun := gate.1
  if !shouldRun then { err := none, fs := fs, wallpaper := wallpaper, trace := [] }
  else runStages rwc env fs wallpaper

/-- The method `forceRun`. -/
def forceRun (rwc : RedPaper) (env : Env) (fs : FS) (wallpaper : Option (List Char)) :
    RunResult :=
  runStages rwc env fs wallpaper

/-- The name of a regular file directly inside `folder`, if `path` is one. -/
def entryName (folder path : List Char) : Option (List Char) :=
  let name := path.drop (Join folder []).length
  if Join folder name = path ∧ name ≠ [] ∧ ¬ name.contains sep ∧ ¬ name.contains '/' then
    some name
  else none

/-- Go `os.ReadDir(folder)`: the entries by file name, in byte order. -/
def ReadDir (fs : FS) (folder : List Char) : List (List Char) :=
  (fs.filterMap (fun entry => entryName folder entry.1)).insertionSort
    (fun a b => (a.map Char.toNat) ≤ (b.map Char.toNat))

/-- The loop of `testCompression` over the directory entries. -/
def testCompressionLoop (rwc : RedPaper) (env : Env) : List (List Char) → FS → FS
  | [], fs => fs
  | name :: rest, fs =>
    let ext := ToLower env.lower (Ext name)
    if ext = ['.', 'j', 'p', 'g'] ∨ ext = ['.', 'j', 'p', 'e', 'g'] ∨ ext = ['.', 'p', 'n', 'g']
    then testCompressionLoop rwc env rest (compressImage env fs (Join rwc.DownloadFolder name)).2
    else testCompressionLoop rwc env rest fs

/-- The method `testCompression`; `readDirErr` is the error of `os.ReadDir`. -/
def testCompression (rwc : RedPaper) (env : Env) (readDirErr : Option String) (fs : FS) :
    Option String × FS :=
  match readDirErr with
  | some err => (some ("error reading download folder: " ++ err), fs)
  | none => (none, testCompressionLoop rwc env (ReadDir fs rwc.DownloadFolder) fs)

/-- The last line `main` logs. -/
inductive FinalMessage where
  | fatal (err : String)
  | testCompleted
  | skipped
  | changed
  deriving DecidableEq, Repr

/-- The outcome of `main`: exit code, last log line, and the run it made. -/
structure MainResult where
  exitCode : Nat
  message : FinalMessage
  run : RunResult

/-- The function `main` with `os.Args = args`, from the files `fs`; `recheckNow`
is the clock at the second call of `shouldRunWallpaperChange`. -/
def main (args : List (List Char)) (rwc : RedPaper) (env : Env) (readDirErr : Option String)
    (recheckNow : Time) (fs : FS) (wallpaper : Option (List Char)) : MainResult :=
  let fs0 := (testCompression rwc env readDirErr fs).2
  if args.length > 1 ∧ args.get? 1 = some ['-', '-', 't', 'e', 's', 't'] then
    let r := forceRun rwc env fs0 wallpaper
    match r.err with
    | some err => { exitCode := 1, message := .fatal err, run := r }
    | none => { exitCode := 0, message := .testCompleted, run := r }
  else
    let r := Run rwc env fs0 wallpaper
    match r.err with
    | some err => { exitCode := 1, message := .fatal err, run := r }
    | none =>
      let gate := shouldRunWallpaperChange rwc recheckNow r.fs
      if gate.2.2 = none ∧ gate.1 = false then { exitCode := 0, message := .skipped, run := r }
      else { exitCode := 0, message := .changed, run := r }

/-! ## Sample inputs for the concrete checks -/

/-- ASCII text as bytes. -/
def ascii (s : List Char) : Bytes :=
  s.map Char.toNat

/-- A receiver as `NewRedPaper("wallpaper")` builds it for the home `C:\Users\u`. -/
def sampleRwc : RedPaper :=
  { Subreddit := "wallpaper".toList,
    DownloadFolder := Join (Join "C:".toList "Users".toList)
      (Join "u".toList (Join "Pictures".toList "redpaper_wallpapers".toList)),
    DataFolder := Join (Join "C:".toList "Users".toList)
      (Join "u".toList (Join "AppData".toList (Join "Local".toList "RedPaper".toList))) }

/-- A qualifying feed entry. -/
def samplePost : PostData :=
  { Title := "Sunset".toList, URL := "https://i.redd.it/sunset.png".toList, Score := 4200 }

/-- A run in which every collaborator succeeds: the feed returns one qualifying
entry, the image arrives, the desktop accepts it, the state file can be written.
The gate reads the clock at Unix second 1700000000, the commit one second later. -/
def sampleEnv : Env :=
  { lower := Char.toLower,
    now := Time.ofUnix 1700000000,
    feed := .status 200 (.ok [samplePost]),
    image := .status 200 [137, 80, 78, 71] none,
    today := "20231114".toList,
    canCreate := fun _ => true,
    decode := fun _ => none,
    encode := fun img => (img, true),
    applyRet := 1,
    commitNow := Time.ofUnix 1700000001,
    writeOk := true }

/-- The files with only a state file of the given content. -/
def stateOnly (content : Bytes) : FS :=
  [(timestampFile sampleRwc, { data := content, readable := true })]

/-- The sample run with the gate reading the clock at `now` instead. -/
def sampleEnvAt (now : Time) : Env :=
  { sampleEnv with now := now }

/-- The sample run with the commit reading the clock at `commitNow` instead. -/
def sampleEnvCommitting (commitNow : Time) : Env :=
  { sampleEnv with commitNow := commitNow }

/-! ## Reference quantities of the specification -/

/-- The exact time from the recorded Unix second `L` to the instant `now`, in
nanoseconds and in unbounded integers: the `N − L` of the specification. -/
def elapsedSince (now : Time) (L : Int) : Int :=
  (now.sec - 62135596800 - L) * 1000000000 + now.nsec

/-! ## Candidate selection (C1) -/

/-- `HasSuffix` is the suffix relation on lists. -/
theorem HasSuffix_iff (s suffix : List Char) : HasSuffix s suffix = true ↔ suffix <:+ s := by
  unfold HasSuffix
  constructor
  · intro h
    simp only [Bool.and_eq_true, decide_eq_true_eq, beq_iff_eq] at h
    rw [← h.2]
    exact List.drop_suffix _ _
  · intro h
    obtain ⟨t, rfl⟩ := h
    simp

/-- The extension loop succeeds exactly when some listed extension is a suffix. -/
theorem anySuffix_iff (u : List Char) (exts : List (List Char)) :
    anySuffix u exts = true ↔ ∃ ext ∈ exts, ext <:+ u := by
  induction exts with
  | nil => simp [anySuffix]
  | cons e rest ih =>
    unfold anySuffix
    split
    · rename_i h
      simp only [true_iff]
      exact ⟨e, List.mem_cons_self _ _, (HasSuffix_iff _ _).1 h⟩
    · rename_i h
      rw [ih]
      constructor
      · rintro ⟨x, hx, hs⟩
        exact ⟨x, List.mem_cons_of_mem _ hx, hs⟩
      · rintro ⟨x, hx, hs⟩
        rcases List.mem_cons.1 hx with rfl | hx
        · exact absurd ((HasSuffix_iff _ _).2 hs) h
        · exact ⟨x, hx, hs⟩

/-- The selection loop fails only with the not-found error, and exactly when no
entry is an image URL. -/
theorem selectFirstImage_error_iff (lower : Char → Char) (posts : List PostData) (e : String) :
    selectFirstImage lower posts = .error e ↔
      e = "no suitable wallpaper found" ∧ ∀ p ∈ posts, IsImageURL lower p.URL = false := by
  induction posts with
  | nil =>
    unfold selectFirstImage
    constructor
    · intro h
      injection h with h
      exact ⟨h.symm, fun p hp => absurd hp (List.not_mem_nil p)⟩
    · rintro ⟨rfl, _⟩
      rfl
  | cons p ps ih =>
    unfold selectFirstImage
    by_cases h : IsImageURL lower p.URL = true
    · simp [h]
    · simp only [h, if_false, Bool.false_eq_true]
      rw [ih]
      simp at h
      simp [h]

/-- The selection loop returns the first entry that is an image URL. -/
theorem selectFirstImage_first (lower : Char → Char) (posts : List PostData) (i : Nat)
    (h : i < posts.length) (hi : IsImageURL lower posts[i].URL = true)
    (hj : ∀ j (hj : j < posts.length), j < i → IsImageURL lower posts[j].URL = false) :
    selectFirstImage lower posts =
      .ok { URL := posts[i].URL, Title := posts[i].Title, Score := posts[i].Score } := by
  induction posts generalizing i with
  | nil => simp at h
  | cons p ps ih =>
    unfold selectFirstImage
    cases i with
    | zero =>
      simp at hi
      simp [hi]
    | succ k =>
      have h0 := hj 0 (by simp) (by omega)
      simp at h0
      simp only [h0, Bool.false_eq_true, if_false]
      simp only [List.getElem_cons_succ]
      apply ih k (by simpa using h) (by simpa using hi)
      intro j hjl hjk
      have := hj (j + 1) (by simpa using hjl) (by omega)
      simpa using this

/-- C1: `IsImageURL` holds exactly when the lower-cased URL ends with one of
".jpg", ".jpeg", ".png", ".bmp", ".gif"; on a decoded feed response
`GetTopWallpaper` runs the selection loop, which returns the entry at the least
index whose URL satisfies `IsImageURL`, with exactly that entry's URL, title and
score, and returns the "no suitable wallpaper found" error if and only if no
entry satisfies `IsImageURL` (it returns no other error).  The URLs `a.txt`,
`b.PNG`, `c.jpg` select the second entry. -/
theorem GetTopWallpaper_selects_first_image (lower : Char → Char) (posts : List PostData) :
    (∀ url : List Char, IsImageURL lower url = true ↔
      ∃ ext ∈ [".jpg".toList, ".jpeg".toList, ".png".toList, ".bmp".toList, ".gif".toList],
        ext <:+ url.map lower) ∧
    GetTopWallpaper lower (.status 200 (.ok posts)) = selectFirstImage lower posts ∧
    (∀ (i : Nat) (h : i < posts.length), IsImageURL lower posts[i].URL = true →
      (∀ j (hj : j < posts.length), j < i → IsImageURL lower posts[j].URL = false) →
      selectFirstImage lower posts =
        .ok { URL := posts[i].URL, Title := posts[i].Title, Score := posts[i].Score }) ∧
    (selectFirstImage lower posts = .error "no suitable wallpaper found" ↔
      ∀ p ∈ posts, IsImageURL lower p.URL = false) ∧
    (∀ e, selectFirstImage lower posts = .error e → e = "no suitable wallpaper found") ∧
    selectFirstImage Char.toLower
        [{ Title := "A".toList, URL := "https://h/a.txt".toList, Score := 3 },
         { Title := "B".toList, URL := "https://h/b.PNG".toList, Score := 2 },
         { Title := "C".toList, URL := "https://h/c.jpg".toList, Score := 1 }] =
      .ok { URL := "https://h/b.PNG".toList, Title := "B".toList, Score := 2 } := by
  refine ⟨?_, ?_, ?_, ?_, ?_, ?_⟩
  · intro url
    exact anySuffix_iff _ _
  · rfl
  · exact fun i h hi hj => selectFirstImage_first lower posts i h hi hj
  · rw [selectFirstImage_error_iff]; simp
  · exact fun e he => ((selectFirstImage_error_iff lower posts e).1 he).1
  · decide

/-! ## File-name sanitising (C8) -/

/-- Replacing every match of the class by nothing is filtering the class out. -/
theorem replaceAllInvalid_eq_filter (s : List Char) :
    replaceAllInvalid s = s.filter (fun c => !invalidFilenameChars.contains c) := by
  induction s with
  | nil => rfl
  | cons c cs ih =>
    unfold replaceAllInvalid
    by_cases h : c ∈ invalidFilenameChars
    · simp [h, ih, List.filter_cons]
    · simp [h, ih, List.filter_cons]

/-- Trimming on the left removes a prefix of whitespace and stops at a
non-whitespace rune. -/
theorem trimLeftSpace_decomp (s : List Char) :
    ∃ pre, (∀ c ∈ pre, isSpace c = true) ∧ s = pre ++ trimLeftSpace s ∧
      ∀ c, (trimLeftSpace s).head? = some c → isSpace c = false := by
  induction s with
  | nil => exact ⟨[], by simp, by simp [trimLeftSpace], by simp [trimLeftSpace]⟩
  | cons a as ih =>
    unfold trimLeftSpace
    by_cases h : isSpace a = true
    · obtain ⟨pre, h1, h2, h3⟩ := ih
      refine ⟨a :: pre, ?_, ?_, ?_⟩
      · intro c hc
        rcases List.mem_cons.1 hc with rfl | hc
        · exact h
        · exact h1 c hc
      · simp only [h, if_true, List.cons_append]
        exact congrArg _ h2
      · simpa only [h, if_true] using h3
    · refine ⟨[], by simp, by simp [h], ?_⟩
      simp only [h, if_false, List.head?_cons, Option.some.injEq, Bool.false_eq_true]
      rintro c rfl
      simpa using h

/-- `TrimSpace` removes a whitespace prefix and a whitespace suffix; what is left
neither starts nor ends with whitespace. -/
theorem TrimSpace_decomp (s : List Char) :
    ∃ pre post, (∀ c ∈ pre, isSpace c = true) ∧ (∀ c ∈ post, isSpace c = true) ∧
      s = pre ++ TrimSpace s ++ post ∧
      (∀ c, (TrimSpace s).head? = some c → isSpace c = false) ∧
      (∀ c, (TrimSpace s).getLast? = some c → isSpace c = false) := by
  obtain ⟨pre, hpre, hs, hhead⟩ := trimLeftSpace_decomp s
  obtain ⟨tsop, hpost, hm, hlast⟩ := trimLeftSpace_decomp (trimLeftSpace s).reverse
  have hm2 : trimLeftSpace s = TrimSpace s ++ tsop.reverse := by
    have := congrArg List.reverse hm
    simpa [TrimSpace, trimRightSpace] using this
  refine ⟨pre, tsop.reverse, hpre, ?_, ?_, ?_, ?_⟩
  · intro c hc
    exact hpost c (List.mem_reverse.1 hc)
  · rw [List.append_assoc, ← hm2]
    exact hs
  · intro c hc
    apply hhead c
    rw [hm2]
    cases hT : TrimSpace s with
    | nil => rw [hT] at hc; simp at hc
    | cons a as => rw [hT] at hc; simpa using hc
  · intro c hc
    apply hlast c
    simpa [TrimSpace, trimRightSpace, List.getLast?_reverse] using hc

/-- C8: for every title, `sanitizeFilename` returns the title with every
occurrence of the nine characters `<`, `>`, `:`, double quote, `/`, backslash,
`|`, `?`, `*` deleted (the others kept in order) and the leading and trailing
whitespace trimmed, or "redpaper" when that is empty; the result is never empty
and holds none of the nine characters; "My:Cool/Wallpaper?" gives
"MyCoolWallpaper". -/
theorem sanitizeFilename_spec (t : List Char) :
    (∃ pre core post : List Char,
      t.filter (fun c => c ∉ ['<', '>', ':', Char.ofNat 34, '/', Char.ofNat 92, '|', '?', '*']) =
        pre ++ core ++ post ∧
      (∀ c ∈ pre, isSpace c = true) ∧ (∀ c ∈ post, isSpace c = true) ∧
      (∀ c, core.head? = some c → isSpace c = false) ∧
      (∀ c, core.getLast? = some c → isSpace c = false) ∧
      sanitizeFilename t = if core = [] then "redpaper".toList else core) ∧
    sanitizeFilename t ≠ [] ∧
    (∀ c ∈ sanitizeFilename t,
      c ∉ ['<', '>', ':', Char.ofNat 34, '/', Char.ofNat 92, '|', '?', '*']) ∧
    sanitizeFilename "My:Cool/Wallpaper?".toList = "MyCoolWallpaper".toList := by
  have hfilter : t.filter (fun c => c ∉ ['<', '>', ':', Char.ofNat 34, '/', Char.ofNat 92, '|', '?', '*'])
      = replaceAllInvalid t := by
    rw [replaceAllInvalid_eq_filter]
    apply List.filter_congr
    intro c _
    simp [invalidFilenameChars]
  obtain ⟨pre, post, hpre, hpost, hs, hhead, hlast⟩ := TrimSpace_decomp (replaceAllInvalid t)
  refine ⟨⟨pre, TrimSpace (replaceAllInvalid t), post, ?_, hpre, hpost, hhead, hlast, ?_⟩, ?_, ?_, ?_⟩
  · rw [hfilter]; exact hs
  · rfl
  · unfold sanitizeFilename
    simp only
    split
    · decide
    · assumption
  · intro c hc
    unfold sanitizeFilename at hc
    simp only at hc
    split at hc
    · revert c; decide
    · have hmem : c ∈ replaceAllInvalid t := by
        rw [hs]; simp [hc]
      rw [← hfilter] at hmem
      simpa using (List.mem_filter.1 hmem).2
  · decide

/-! ## The extension of the saved file (C9) -/

/-- The helper `contains` is list membership. -/
theorem contains_iff (slice : List (List Char)) (item : List Char) :
    contains slice item = true ↔ item ∈ slice := by
  induction slice with
  | nil => simp [contains]
  | cons s rest ih =>
    unfold contains
    by_cases h : s = item
    · simp [h]
    · simp only [h, if_false, ih, List.mem_cons]
      constructor
      · exact Or.inr
      · rintro (h1 | h1)
        · exact absurd h1.symm h
        · exact h1

/-- The extension of a saved file is always one of the four listed in
`DownloadImage`. -/
theorem fileExtension_mem (lower : Char → Char) (url : List Char) :
    fileExtension lower url ∈ ["jpg".toList, "jpeg".toList, "png".toList, "bmp".toList] := by
  unfold fileExtension
  simp only
  split
  · split
    · rename_i h
      exact (contains_iff _ _).1 h
    · decide
  · decide

/-- C9 (the code at the failing input): a URL ending in ".gif" is accepted by
`IsImageURL`, yet `DownloadImage` names the saved file with the extension "jpg";
for every URL the extension is one of "jpg", "jpeg", "png", "bmp", never
"gif". -/
theorem fileExtension_gif_saved_as_jpg :
    IsImageURL Char.toLower "https://i.redd.it/a.gif".toList = true ∧
    fileExtension Char.toLower "https://i.redd.it/a.gif".toList = "jpg".toList ∧
    (∀ (lower : Char → Char) (url : List Char),
      fileExtension lower url ∈ ["jpg".toList, "jpeg".toList, "png".toList, "bmp".toList]) := by
  exact ⟨by decide, by decide, fun lower url => fileExtension_mem lower url⟩

/-! ## The size check of `compressImage` (C7) -/

/-- C7: for every path whose file is at most 16777216 bytes long (the bound
included), `compressImage` returns exactly that path with no error and leaves
every file as it was; applying it again to its result gives the same path and
files, and the bytes of the file are unchanged. -/
theorem compressImage_within_limit (env : Env) (fs : FS) (imagePath : List Char) (file : File)
    (hstat : fs.stat imagePath = some file) (hsize : file.data.length ≤ 16777216) :
    compressImage env fs imagePath = (.ok imagePath, fs) ∧
    (∀ path fs1, compressImage env fs imagePath = (.ok path, fs1) →
      compressImage env fs1 path = (.ok imagePath, fs)) ∧
    (compressImage env fs imagePath).2.stat imagePath = some file := by
  have h1 : compressImage env fs imagePath = (.ok imagePath, fs) := by
    unfold compressImage
    rw [hstat]
    have : file.data.length ≤ MAX_WALLPAPER_SIZE := by
      simpa [MAX_WALLPAPER_SIZE] using hsize
    simp [this]
  refine ⟨h1, ?_, ?_⟩
  · intro path fs1 h
    rw [h1] at h
    injection h with hp hf
    injection hp with hp
    subst hp
    subst hf
    exact h1
  · rw [h1]
    exact hstat

/-- C7 at the bound: a file of exactly 16777216 bytes is returned as it is. -/
theorem compressImage_within_limit_witness :
    (List.replicate 16777216 0).length ≤ 16777216 ∧
    compressImage sampleEnv
        [("a.png".toList, { data := List.replicate 16777216 0, readable := true })]
        "a.png".toList =
      (.ok "a.png".toList,
        [("a.png".toList, { data := List.replicate 16777216 0, readable := true })]) :=
  ⟨(List.length_replicate _ _).le,
    (compressImage_within_limit sampleEnv
      [("a.png".toList, { data := List.replicate 16777216 0, readable := true })]
      "a.png".toList { data := List.replicate 16777216 0, readable := true }
      rfl (List.length_replicate _ _).le).1⟩

/-! ## The state file is no image file -/

/-- Writing one path leaves the file at every other path as it was. -/
theorem FS.stat_put_ne (fs : FS) (p q : List Char) (f : File) (h : p ≠ q) :
    (fs.put q f).stat p = fs.stat p := by
  induction fs with
  | nil =>
    simp only [FS.put, FS.stat]
    rw [if_neg (Ne.symm h)]
  | cons e rest ih =>
    obtain ⟨r, g⟩ := e
    simp only [FS.put]
    by_cases hq : r = q
    · subst hq
      simp only [if_true, FS.stat]
      rw [if_neg (Ne.symm h), if_neg (Ne.symm h)]
    · simp only [hq, if_false, FS.stat]
      by_cases hp : r = p
      · simp [hp]
      · simp [hp, ih]

theorem getLast?_append_nonempty (a b : List Char) (h : b ≠ []) :
    (a ++ b).getLast? = b.getLast? := by
  cases b with
  | nil => exact absurd rfl h
  | cons x xs =>
    rw [List.getLast?_append, List.getLast?_cons]
    rfl

/-- A joined path ends with the last rune of its file name. -/
theorem Join_getLast? (dir name : List Char) (h : name ≠ []) :
    (Join dir name).getLast? = name.getLast? := by
  unfold Join
  split
  · rfl
  · rw [getLast?_append_nonempty _ _ (by simp)]
    cases name with
    | nil => exact absurd rfl h
    | cons x xs => simp

theorem timestampFile_getLast? (rwc : RedPaper) :
    (timestampFile rwc).getLast? = some 't' := by
  unfold timestampFile
  rw [Join_getLast? _ _ (by decide)]
  decide

theorem downloadFilename_getLast? (env : Env) (w : WallpaperData) :
    (downloadFilename env w).getLast? = some 'g' ∨ (downloadFilename env w).getLast? = some 'p' := by
  have hmem := fileExtension_mem env.lower w.URL
  have hlast : ∀ a b : List Char, (a ++ '_' :: b ++ '.' :: fileExtension env.lower w.URL).getLast?
      = (fileExtension env.lower w.URL).getLast? := by
    intro a b
    have hne : fileExtension env.lower w.URL ≠ [] := by
      intro h0
      rw [h0] at hmem
      revert hmem
      decide
    rw [getLast?_append_nonempty _ _ (by simp)]
    cases hx : fileExtension env.lower w.URL with
    | nil => exact absurd hx hne
    | cons x xs => simp
  unfold downloadFilename
  simp only
  rw [hlast]
  simp only [List.mem_cons, List.mem_singleton, List.not_mem_nil, or_false] at hmem
  rcases hmem with h | h | h | h <;> rw [h] <;> decide

/-- The path of a downloaded image is never the path of the state file. -/
theorem downloadPath_ne_timestampFile (rwc : RedPaper) (env : Env) (w : WallpaperData) :
    timestampFile rwc ≠ Join rwc.DownloadFolder (downloadFilename env w) := by
  intro h
  have h1 := timestampFile_getLast? rwc
  have hne : downloadFilename env w ≠ [] := by
    intro h0
    have := downloadFilename_getLast? env w
    rw [h0] at this
    revert this
    decide
  rw [h, Join_getLast? _ _ hne] at h1
  rcases downloadFilename_getLast? env w with h2 | h2 <;> rw [h2] at h1 <;> revert h1 <;> decide

/-- The path of a compressed image is never the path of the state file. -/
theorem compressedPath_ne_timestampFile (rwc : RedPaper) (stem : List Char) :
    timestampFile rwc ≠ stem ++ compressedSuffix := by
  intro h
  have h1 := timestampFile_getLast? rwc
  rw [h, getLast?_append_nonempty _ _ (by decide)] at h1
  revert h1
  decide

/-- `DownloadImage` leaves the state file as it was. -/
theorem DownloadImage_keeps_state (rwc : RedPaper) (env : Env) (fs : FS) (w : WallpaperData) :
    (DownloadImage rwc env fs w).2.stat (timestampFile rwc) = fs.stat (timestampFile rwc) := by
  unfold DownloadImage
  (repeat' (first | split | simp only [])) <;>
    first
    | rfl
    | exact FS.stat_put_ne _ _ _ _ (downloadPath_ne_timestampFile rwc env w)

/-- `compressImage` leaves the state file as it was. -/
theorem compressImage_keeps_state (rwc : RedPaper) (env : Env) (fs : FS) (p : List Char) :
    (compressImage env fs p).2.stat (timestampFile rwc) = fs.stat (timestampFile rwc) := by
  unfold compressImage
  (repeat' (first | split | simp only [])) <;>
    first
    | rfl
    | exact FS.stat_put_ne _ _ _ _ (compressedPath_ne_timestampFile rwc _)

/-! ## The orchestrator: skip, failure and commit (C2, C4, C5, C6) -/

/-- The four ways the stages after the gate can end: feed error, download error,
`SetWallpaper` error, success with commit. -/
theorem runStages_cases (rwc : RedPaper) (env : Env) (fs : FS) (wallpaper : Option (List Char)) :
    (∃ e, GetTopWallpaper env.lower env.feed = .error e ∧
      runStages rwc env fs wallpaper =
        { err := some ("error fetching wallpaper: " ++ e), fs := fs, wallpaper := wallpaper,
          trace := [.feedQuery] }) ∨
    (∃ w e, GetTopWallpaper env.lower env.feed = .ok w ∧
      (DownloadImage rwc env fs w).1 = .error e ∧
      runStages rwc env fs wallpaper =
        { err := some ("error downloading image: " ++ e), fs := (DownloadImage rwc env fs w).2,
          wallpaper := wallpaper, trace := [.feedQuery, .download w.URL] }) ∨
    (∃ w p final e, GetTopWallpaper env.lower env.feed = .ok w ∧
      (DownloadImage rwc env fs w).1 = .ok p ∧ SetWallpaper env final = some e ∧
      runStages rwc env fs wallpaper =
        { err := some ("error setting wallpaper: " ++ e),
          fs := (compressImage env (DownloadImage rwc env fs w).2 p).2,
          wallpaper := wallpaper,
          trace := [.feedQuery, .download w.URL, .compress p, .apply final] }) ∨
    (∃ w p final, GetTopWallpaper env.lower env.feed = .ok w ∧
      (DownloadImage rwc env fs w).1 = .ok p ∧ SetWallpaper env final = none ∧
      runStages rwc env fs wallpaper =
        { err := none,
          fs := (saveLastRunTime rwc env (compressImage env (DownloadImage rwc env fs w).2 p).2).2,
          wallpaper := some final,
          trace := [.feedQuery, .download w.URL, .compress p, .apply final, .commit] }) := by
  cases hfeed : GetTopWallpaper env.lower env.feed with
  | error e => exact Or.inl ⟨e, rfl, by simp only [runStages, hfeed]⟩
  | ok w =>
    rcases hdl : DownloadImage rwc env fs w with ⟨res, fs1⟩
    cases res with
    | error e =>
      exact Or.inr (Or.inl ⟨w, e, rfl, by rw [hdl], by simp only [runStages, hfeed, hdl]⟩)
    | ok p =>
      cases hs : SetWallpaper env (fallBack (compressImage env fs1 p).1 p) with
      | some e =>
        exact Or.inr (Or.inr (Or.inl ⟨w, p, _, e, rfl, by rw [hdl], hs,
          by simp only [runStages, hfeed, hdl, hs]⟩))
      | none =>
        exact Or.inr (Or.inr (Or.inr ⟨w, p, _, rfl, by rw [hdl], hs,
          by simp only [runStages, hfeed, hdl, hs, List.cons_append, List.nil_append]⟩))

/-- C5: whenever the gate reports Cooling at the instant of the run (not
eligible, some remaining time, no error), `Run` returns nil and makes none of
the later stage calls: no feed query, download, compression, `SetWallpaper` or
commit; the files (the state file among them) and the desktop background are
left as they were. -/
theorem Run_skips_when_cooling (rwc : RedPaper) (env : Env) (fs : FS)
    (wallpaper : Option (List Char)) (remaining : Int)
    (hgate : shouldRunWallpaperChange rwc env.now fs = (false, remaining, none)) :
    (Run rwc env fs wallpaper).err = none ∧ (Run rwc env fs wallpaper).trace = [] ∧
    (Run rwc env fs wallpaper).fs = fs ∧ (Run rwc env fs wallpaper).wallpaper = wallpaper := by
  unfold Run
  simp [hgate]

/-- C5 on a record one hour old: the gate reports 23 hours remaining and the
run makes no stage call. -/
theorem Run_skips_when_cooling_witness :
    shouldRunWallpaperChange sampleRwc sampleEnv.now (stateOnly (ascii "1699996400".toList)) =
      (false, 82800000000000, none) ∧
    (Run sampleRwc sampleEnv (stateOnly (ascii "1699996400".toList)) none).trace = [] :=
  ⟨by decide, (Run_skips_when_cooling sampleRwc sampleEnv _ none 82800000000000 (by decide)).2.1⟩

/-- C2 (the code where the state cannot be read): whenever `getLastRunTime`
returns an error, `Run` takes the skip branch: it returns nil and makes no stage
call, not even the feed query.  A state file holding "abc" is such a state. -/
theorem Run_skips_when_state_unreadable :
    (∀ (rwc : RedPaper) (env : Env) (fs : FS) (wallpaper : Option (List Char)) (e : String),
      getLastRunTime rwc fs = .error e →
      (Run rwc env fs wallpaper).err = none ∧ (Run rwc env fs wallpaper).trace = []) ∧
    (∃ e, getLastRunTime sampleRwc (stateOnly (ascii "abc".toList)) = .error e) ∧
    GetTopWallpaper sampleEnv.lower sampleEnv.feed =
      .ok { URL := samplePost.URL, Title := samplePost.Title, Score := samplePost.Score } ∧
    (Run sampleRwc sampleEnv (stateOnly (ascii "abc".toList)) none).err = none ∧
    (Run sampleRwc sampleEnv (stateOnly (ascii "abc".toList)) none).trace = [] := by
  refine ⟨?_, ⟨_, rfl⟩, by decide, by decide, by decide⟩
  intro rwc env fs wallpaper e h
  unfold Run shouldRunWallpaperChange
  simp [h]

/-- C4: in every run, a stage that fails (feed query, download, `SetWallpaper`)
makes `Run` return that error; a run that returns an error never calls
`saveLastRunTime` and leaves the state file as it was (content or absence); the
state file differs after the run only if `SetWallpaper` returned success and the
commit is the call right after it. -/
theorem Run_commits_only_after_apply (rwc : RedPaper) (env : Env) (fs : FS)
    (wallpaper : Option (List Char)) :
    ((shouldRunWallpaperChange rwc env.now fs).1 = true →
      (∀ e, GetTopWallpaper env.lower env.feed = .error e →
        (Run rwc env fs wallpaper).err = some ("error fetching wallpaper: " ++ e)) ∧
      (∀ w e, GetTopWallpaper env.lower env.feed = .ok w →
        (DownloadImage rwc env fs w).1 = .error e →
        (Run rwc env fs wallpaper).err = some ("error downloading image: " ++ e))) ∧
    (∀ path e, Event.apply path ∈ (Run rwc env fs wallpaper).trace →
      SetWallpaper env path = some e →
      (Run rwc env fs wallpaper).err = some ("error setting wallpaper: " ++ e)) ∧
    ((Run rwc env fs wallpaper).err ≠ none →
      Event.commit ∉ (Run rwc env fs wallpaper).trace ∧
      (Run rwc env fs wallpaper).fs.stat (timestampFile rwc) = fs.stat (timestampFile rwc)) ∧
    ((Run rwc env fs wallpaper).fs.stat (timestampFile rwc) ≠ fs.stat (timestampFile rwc) →
      ∃ stages path, SetWallpaper env path = none ∧
        (Run rwc env fs wallpaper).trace = stages ++ [.apply path, .commit] ∧
        Event.commit ∉ stages) := by
  by_cases hgate : (shouldRunWallpaperChange rwc env.now fs).1 = true
  · have hrun : Run rwc env fs wallpaper = runStages rwc env fs wallpaper := by
      unfold Run
      simp [hgate]
    rw [hrun]
    have hkeep : ∀ w p, (compressImage env (DownloadImage rwc env fs w).2 p).2.stat
        (timestampFile rwc) = fs.stat (timestampFile rwc) := by
      intro w p
      rw [compressImage_keeps_state, DownloadImage_keeps_state]
    rcases runStages_cases rwc env fs wallpaper with
      ⟨e, hf, hr⟩ | ⟨w, e, hf, hd, hr⟩ | ⟨w, p, final, e, hf, hd, hs, hr⟩ | ⟨w, p, final, hf, hd, hs, hr⟩
    · rw [hr]
      refine ⟨fun _ => ⟨?_, ?_⟩, ?_, ?_, ?_⟩
      · intro e2 h2
        rw [hf] at h2
        injection h2 with h2
        rw [h2]
      · intro w e2 h2
        rw [hf] at h2
        cases h2
      · intro path e2 hmem
        simp at hmem
      · intro _
        exact ⟨by simp, rfl⟩
      · intro h
        exact absurd rfl h
    · rw [hr]
      refine ⟨fun _ => ⟨?_, ?_⟩, ?_, ?_, ?_⟩
      · intro e2 h2
        rw [hf] at h2
        cases h2
      · intro w2 e2 h2 h3
        rw [hf] at h2
        injection h2 with h2
        subst h2
        rw [hd] at h3
        injection h3 with h3
        rw [h3]
      · intro path e2 hmem
        simp at hmem
      · intro _
        exact ⟨by simp, DownloadImage_keeps_state rwc env fs w⟩
      · intro h
        exact absurd (DownloadImage_keeps_state rwc env fs w) h
    · rw [hr]
      refine ⟨fun _ => ⟨?_, ?_⟩, ?_, ?_, ?_⟩
      · intro e2 h2
        rw [hf] at h2
        cases h2
      · intro w2 e2 h2 h3
        rw [hf] at h2
        injection h2 with h2
        subst h2
        rw [hd] at h3
        cases h3
      · intro path e2 hmem h2
        simp at hmem
        subst hmem
        rw [hs] at h2
        injection h2 with h2
        rw [h2]
      · intro _
        exact ⟨by simp, hkeep w p⟩
      · intro h
        exact absurd (hkeep w p) h
    · rw [hr]
      refine ⟨fun _ => ⟨?_, ?_⟩, ?_, ?_, ?_⟩
      · intro e2 h2
        rw [hf] at h2
        cases h2
      · intro w2 e2 h2 h3
        rw [hf] at h2
        injection h2 with h2
        subst h2
        rw [hd] at h3
        cases h3
      · intro path e2 hmem h2
        simp at hmem
        subst hmem
        rw [hs] at h2
        cases h2
      · intro h
        exact absurd rfl h
      · intro _
        exact ⟨[.feedQuery, .download w.URL, .compress p], final, hs, rfl, by simp⟩
  · have hrun : Run rwc env fs wallpaper =
        { err := none, fs := fs, wallpaper := wallpaper, trace := [] } := by
      unfold Run
      simp [hgate]
    rw [hrun]
    refine ⟨fun h => absurd h hgate, ?_, ?_, ?_⟩
    · intro path e hmem
      simp at hmem
    · intro h
      exact absurd rfl h
    · intro h
      exact absurd rfl h

/-- C6 (the code on a first run in which every stage succeeds, and on a corrupt
state file): after a run that applied a wallpaper and committed the timestamp,
`main` asks the gate again, which now answers Cooling, and the last line logged
is the "skipped" one; after a run that skipped because the state file holds
"abc", the gate answers with an error and the last line is "Wallpaper changed
successfully!".  The exit code is 0 both times. -/
theorem main_final_message_inverted :
    (main ["redpaper.exe".toList] sampleRwc sampleEnv none (Time.ofUnix 1700000002) []
      none).run.trace =
      [.feedQuery, .download samplePost.URL,
        .compress (Join sampleRwc.DownloadFolder "20231114_Sunset.png".toList),
        .apply (Join sampleRwc.DownloadFolder "20231114_Sunset.png".toList), .commit] ∧
    (main ["redpaper.exe".toList] sampleRwc sampleEnv none (Time.ofUnix 1700000002) []
      none).run.fs.stat (timestampFile sampleRwc) =
      some { data := ascii "1700000001".toList, readable := true } ∧
    (main ["redpaper.exe".toList] sampleRwc sampleEnv none (Time.ofUnix 1700000002) []
      none).message = .skipped ∧
    (main ["redpaper.exe".toList] sampleRwc sampleEnv none (Time.ofUnix 1700000002) []
      none).exitCode = 0 ∧
    (main ["redpaper.exe".toList] sampleRwc sampleEnv none (Time.ofUnix 1700000002)
      (stateOnly (ascii "abc".toList)) none).run.trace = [] ∧
    (main ["redpaper.exe".toList] sampleRwc sampleEnv none (Time.ofUnix 1700000002)
      (stateOnly (ascii "abc".toList)) none).message = .changed ∧
    (main ["redpaper.exe".toList] sampleRwc sampleEnv none (Time.ofUnix 1700000002)
      (stateOnly (ascii "abc".toList)) none).exitCode = 0 := by
  refine ⟨by decide, by decide, by decide, by decide, by decide, by decide, by decide⟩

/-! ## Wall-clock arithmetic in `int64` -/

theorem wrapInt64_eq_of_range (x : Int) (h1 : -9223372036854775808 ≤ x)
    (h2 : x ≤ 9223372036854775807) : wrapInt64 x = x := by
  unfold wrapInt64
  omega

theorem wrapInt64_range (x : Int) :
    -9223372036854775808 ≤ wrapInt64 x ∧ wrapInt64 x ≤ 9223372036854775807 := by
  unfold wrapInt64
  omega

theorem wrapInt64_congr (x : Int) : ∃ k : Int, wrapInt64 x = x + 18446744073709551616 * k := by
  unfold wrapInt64
  exact ⟨-((x + 9223372036854775808) / 18446744073709551616), by omega⟩

/-- The wrapped difference of `Sub` is the exact one modulo 2^64. -/
theorem subRaw_congr (ts tn us un : Int) :
    ∃ k : Int, wrapInt64 (wrapInt64 (wrapInt64 (ts - us) * Second) + (tn - un)) =
      (ts - us) * 1000000000 + (tn - un) + 18446744073709551616 * k := by
  obtain ⟨k1, h1⟩ := wrapInt64_congr (ts - us)
  obtain ⟨k2, h2⟩ := wrapInt64_congr (wrapInt64 (ts - us) * Second)
  obtain ⟨k3, h3⟩ := wrapInt64_congr (wrapInt64 (wrapInt64 (ts - us) * Second) + (tn - un))
  refine ⟨k3 + k2 + 1000000000 * k1, ?_⟩
  rw [h3, h2, h1]
  unfold Second
  ring

theorem quoT_remT (d : Int) :
    d = 1000000000 * quoT d 1000000000 + remT d 1000000000 ∧
    -1000000000 < remT d 1000000000 ∧ remT d 1000000000 < 1000000000 ∧
    (0 ≤ d → 0 ≤ remT d 1000000000) ∧ (d ≤ 0 → remT d 1000000000 ≤ 0) := by
  unfold remT quoT
  split <;> omega

/-- Without overflow `addSec` adds the seconds. -/
theorem Time.addSec_exact (t : Time) (d : Int) (h1 : -9223372036854775808 ≤ t.sec + d)
    (h2 : t.sec + d ≤ 9223372036854775807) :
    t.addSec d = { sec := t.sec + d, nsec := t.nsec } := by
  unfold Time.addSec
  rw [wrapInt64_eq_of_range _ h1 h2]
  by_cases hd : d > 0
  · have : t.sec + d > t.sec := by omega
    simp [hd, this]
  · have : ¬ (t.sec + d > t.sec) := by omega
    simp [hd, this]

/-- Without overflow `Add` adds the duration to the instant. -/
theorem Time.Add_exact (u : Time) (d : Int) (hn1 : 0 ≤ u.nsec) (hn2 : u.nsec < 1000000000)
    (h1 : -9223372036854775807 ≤ u.sec + quoT d 1000000000)
    (h2 : u.sec + quoT d 1000000000 ≤ 9223372036854775806) :
    (u.Add d).sec * 1000000000 + (u.Add d).nsec = u.sec * 1000000000 + u.nsec + d ∧
    0 ≤ (u.Add d).nsec ∧ (u.Add d).nsec < 1000000000 := by
  obtain ⟨hd, hr1, hr2, _, _⟩ := quoT_remT d
  unfold Time.Add
  simp only
  split
  · rw [Time.addSec_exact _ _ (by simp only; omega) (by simp only; omega)]
    simp only
    omega
  · split
    · rw [Time.addSec_exact _ _ (by simp only; omega) (by simp only; omega)]
      simp only
      omega
    · rw [Time.addSec_exact _ _ (by simp only; omega) (by simp only; omega)]
      simp only
      omega

theorem Time.eq_of_total (a b : Time) (ha1 : 0 ≤ a.nsec) (ha2 : a.nsec < 1000000000)
    (hb1 : 0 ≤ b.nsec) (hb2 : b.nsec < 1000000000)
    (h : a.sec * 1000000000 + a.nsec = b.sec * 1000000000 + b.nsec) : a = b := by
  cases a
  cases b
  simp only at *
  simp only [Time.mk.injEq]
  omega

/-- When the exact difference fits a `Duration`, `Sub` returns it. -/
theorem Time.Sub_exact (t u : Time) (ht1 : 0 ≤ t.nsec) (ht2 : t.nsec < 1000000000)
    (hu1 : 0 ≤ u.nsec) (hu2 : u.nsec < 1000000000)
    (hs1 : -9223372036854775800 ≤ t.sec) (hs2 : t.sec ≤ 9223372036854775800)
    (hD1 : -9223372036854775808 ≤ (t.sec - u.sec) * 1000000000 + (t.nsec - u.nsec))
    (hD2 : (t.sec - u.sec) * 1000000000 + (t.nsec - u.nsec) ≤ 9223372036854775807) :
    t.Sub u = (t.sec - u.sec) * 1000000000 + (t.nsec - u.nsec) := by
  obtain ⟨k, hk⟩ := subRaw_congr t.sec t.nsec u.sec u.nsec
  have hr := wrapInt64_range (wrapInt64 (wrapInt64 (t.sec - u.sec) * Second) + (t.nsec - u.nsec))
  have hd : wrapInt64 (wrapInt64 (wrapInt64 (t.sec - u.sec) * Second) + (t.nsec - u.nsec)) =
      (t.sec - u.sec) * 1000000000 + (t.nsec - u.nsec) := by omega
  unfold Time.Sub
  simp only [hd]
  obtain ⟨hq, hr1, hr2, _, _⟩ := quoT_remT ((t.sec - u.sec) * 1000000000 + (t.nsec - u.nsec))
  have hadd := Time.Add_exact u ((t.sec - u.sec) * 1000000000 + (t.nsec - u.nsec)) hu1 hu2
    (by omega) (by omega)
  have heq : u.Add ((t.sec - u.sec) * 1000000000 + (t.nsec - u.nsec)) = t :=
    Time.eq_of_total _ _ hadd.2.1 hadd.2.2 ht1 ht2 (by omega)
  rw [if_pos heq]

/-- When the exact difference exceeds the largest `Duration`, `Sub` returns
`maxDuration`. -/
theorem Time.Sub_saturates (t u : Time) (ht1 : 0 ≤ t.nsec) (ht2 : t.nsec < 1000000000)
    (hu1 : 0 ≤ u.nsec) (hu2 : u.nsec < 1000000000)
    (hs1 : -9223372026854775808 ≤ u.sec) (hs2 : u.sec ≤ 9223372026854775807)
    (hD : 9223372036854775807 < (t.sec - u.sec) * 1000000000 + (t.nsec - u.nsec)) :
    t.Sub u = maxDuration := by
  obtain ⟨k, hk⟩ := subRaw_congr t.sec t.nsec u.sec u.nsec
  have hr := wrapInt64_range (wrapInt64 (wrapInt64 (t.sec - u.sec) * Second) + (t.nsec - u.nsec))
  unfold Time.Sub
  simp only
  generalize wrapInt64 (wrapInt64 (wrapInt64 (t.sec - u.sec) * Second) + (t.nsec - u.nsec)) = d
    at hk hr
  obtain ⟨hq, hr1, hr2, _, _⟩ := quoT_remT d
  have hadd := Time.Add_exact u d hu1 hu2 (by omega) (by omega)
  have hne : u.Add d ≠ t := by
    intro h
    rw [h] at hadd
    omega
  rw [if_neg hne]
  have hb : t.Before u = false := by
    unfold Time.Before
    have h1 : ¬ t.sec < u.sec := by omega
    have h2 : ¬ (t.sec = u.sec ∧ t.nsec < u.nsec) := by omega
    simp only [Bool.or_eq_false_iff, decide_eq_false_iff_not, Bool.and_eq_false_iff, beq_eq_false_iff_ne]
    refine ⟨h1, ?_⟩
    by_cases h3 : t.sec = u.sec
    · right
      omega
    · left
      exact h3
  rw [hb]
  rfl

theorem parseIntSigned_range (neg : Bool) (s : Bytes) (L : Int)
    (h : parseIntSigned neg s = .ok L) :
    -9223372036854775808 ≤ L ∧ L ≤ 9223372036854775807 := by
  unfold parseIntSigned at h
  split at h
  · cases h
  · rename_i un _
    cases neg
    · simp only [Bool.not_false, Bool.true_and, Bool.false_and, Bool.false_eq_true, if_false,
        decide_eq_true_eq] at h
      split at h
      · cases h
      · injection h with h
        omega
    · simp only [Bool.not_true, Bool.false_and, Bool.true_and, Bool.false_eq_true, if_false,
        decide_eq_true_eq, if_true] at h
      split at h
      · cases h
      · injection h with h
        omega

/-- A parsed timestamp is an `int64`. -/
theorem ParseInt_range (s : Bytes) (L : Int) (h : ParseInt s = .ok L) :
    -9223372036854775808 ≤ L ∧ L ≤ 9223372036854775807 := by
  unfold ParseInt at h
  split at h
  · cases h
  · split at h
    · exact parseIntSigned_range _ _ _ h
    · split at h
      · exact parseIntSigned_range _ _ _ h
      · exact parseIntSigned_range _ _ _ h

/-! ## The gate (C3) -/

/-- The gate on a state file whose first line parses to `L`. -/
theorem shouldRunWallpaperChange_of_record (rwc : RedPaper) (now : Time) (fs : FS)
    (file : File) (line : Bytes) (L : Int)
    (hstat : fs.stat (timestampFile rwc) = some file) (hread : file.readable = true)
    (hscan : scanFirstLine file.data = some line) (hparse : ParseInt line = .ok L) :
    shouldRunWallpaperChange rwc now fs =
      if (Time.ofUnix L).IsZero then (true, 0, none)
      else if now.Sub (Time.ofUnix L) ≥ day then (true, 0, none)
      else (false, wrapInt64 (day - now.Sub (Time.ofUnix L)), none) := by
  unfold shouldRunWallpaperChange getLastRunTime
  simp only [hstat, hread, hscan, hparse, Bool.not_true, Bool.false_eq_true, if_false]

/-- C3 (amended): for every clock reading N from the second day of year 1 up to
internal second 2^62 and every readable persisted state, the gate returns
eligible `(true, 0, nil)` when there is no record; when the first line of the
state file parses to the timestamp L and 24 hours − (N − L) fits a `Duration`
(L is less than about 292 years after N), it returns eligible if and only if
N − L ≥ 24 hours, and otherwise not-eligible with remaining = 24 hours − (N − L),
which is strictly positive. -/
theorem shouldRunWallpaperChange_spec (rwc : RedPaper) (now : Time) (fs : FS)
    (hns1 : 0 ≤ now.nsec) (hns2 : now.nsec < 1000000000)
    (hsec1 : 86400 ≤ now.sec) (hsec2 : now.sec ≤ 4611686018427387904) :
    (fs.stat (timestampFile rwc) = none →
      shouldRunWallpaperChange rwc now fs = (true, 0, none)) ∧
    (∀ (file : File) (line : Bytes) (L : Int),
      fs.stat (timestampFile rwc) = some file → file.readable = true →
      scanFirstLine file.data = some line → ParseInt line = .ok L →
      86400000000000 - 9223372036854775808 < elapsedSince now L →
      (86400000000000 ≤ elapsedSince now L →
        shouldRunWallpaperChange rwc now fs = (true, 0, none)) ∧
      (elapsedSince now L < 86400000000000 →
        shouldRunWallpaperChange rwc now fs =
          (false, 86400000000000 - elapsedSince now L, none) ∧
        0 < 86400000000000 - elapsedSince now L)) := by
  constructor
  · intro hstat
    unfold shouldRunWallpaperChange getLastRunTime
    simp only [hstat]
    rfl
  · intro file line L hstat hread hscan hparse hlow
    rw [shouldRunWallpaperChange_of_record rwc now fs file line L hstat hread hscan hparse]
    obtain ⟨hL1, hL2⟩ := ParseInt_range line L hparse
    unfold elapsedSince at hlow ⊢
    have hsec : (Time.ofUnix L).sec = L + 62135596800 := by
      unfold Time.ofUnix unixToInternal
      simp only
      exact wrapInt64_eq_of_range _ (by omega) (by omega)
    have hnsec : (Time.ofUnix L).nsec = 0 := rfl
    by_cases hz : (Time.ofUnix L).IsZero = true
    · have hL : L = -62135596800 := by
        unfold Time.IsZero at hz
        simp only [Bool.and_eq_true, beq_iff_eq] at hz
        omega
      rw [if_pos hz]
      refine ⟨fun _ => rfl, fun h => ?_⟩
      omega
    · rw [if_neg hz]
      by_cases hbig : (now.sec - 62135596800 - L) * 1000000000 + now.nsec ≤ 9223372036854775807
      · have hsub : now.Sub (Time.ofUnix L) =
            (now.sec - 62135596800 - L) * 1000000000 + now.nsec := by
          rw [Time.Sub_exact now (Time.ofUnix L) hns1 hns2 (by rw [hnsec]) (by rw [hnsec]; omega)
            (by omega) (by omega) (by rw [hsec, hnsec]; omega) (by rw [hsec, hnsec]; omega)]
          rw [hsec, hnsec]
          ring
        rw [hsub]
        unfold day Second
        constructor
        · intro h
          rw [if_pos (by omega)]
        · intro h
          rw [if_neg (by omega), wrapInt64_eq_of_range _ (by omega) (by omega)]
          exact ⟨rfl, by omega⟩
      · have hsub : now.Sub (Time.ofUnix L) = maxDuration := by
          apply Time.Sub_saturates now (Time.ofUnix L) hns1 hns2 (by rw [hnsec]) (by rw [hnsec]; omega)
            (by rw [hsec]; omega) (by rw [hsec]; omega)
          rw [hsec, hnsec]
          omega
        rw [hsub]
        unfold day Second maxDuration
        constructor
        · intro _
          rw [if_pos (by omega)]
        · intro h
          omega

/-- C3 on the examples of the specification, the clock at Unix second
1700000000: no record is eligible, a record 23h59m old is Cooling with one
minute remaining, a record 24h01m old is eligible. -/
theorem shouldRunWallpaperChange_spec_witness :
    (0 ≤ (Time.ofUnix 1700000000).nsec ∧ (Time.ofUnix 1700000000).nsec < 1000000000 ∧
      86400 ≤ (Time.ofUnix 1700000000).sec ∧
      (Time.ofUnix 1700000000).sec ≤ 4611686018427387904) ∧
    shouldRunWallpaperChange sampleRwc (Time.ofUnix 1700000000) [] = (true, 0, none) ∧
    shouldRunWallpaperChange sampleRwc (Time.ofUnix 1700000000)
        (stateOnly (ascii "1699913660".toList)) = (false, 60000000000, none) ∧
    shouldRunWallpaperChange sampleRwc (Time.ofUnix 1700000000)
        (stateOnly (ascii "1699913540".toList)) = (true, 0, none) :=
  ⟨⟨by decide, by decide, by decide, by decide⟩,
    (shouldRunWallpaperChange_spec sampleRwc (Time.ofUnix 1700000000) []
      (by decide) (by decide) (by decide) (by decide)).1 rfl,
    (((shouldRunWallpaperChange_spec sampleRwc (Time.ofUnix 1700000000)
      (stateOnly (ascii "1699913660".toList)) (by decide) (by decide) (by decide) (by decide)).2
      { data := ascii "1699913660".toList, readable := true } (ascii "1699913660".toList)
      1699913660 rfl rfl (by decide) (by decide) (by decide)).2 (by decide)).1,
    ((shouldRunWallpaperChange_spec sampleRwc (Time.ofUnix 1700000000)
      (stateOnly (ascii "1699913540".toList)) (by decide) (by decide) (by decide) (by decide)).2
      { data := ascii "1699913540".toList, readable := true } (ascii "1699913540".toList)
      1699913540 rfl rfl (by decide) (by decide) (by decide)).1 (by decide)⟩

/-- C3 as stated fails on a readable state whose record lies far in the future:
for the record 99999999999 (year 5138) `time.Since` saturates at the minimum
`Duration` and `24*time.Hour - timeSinceLastRun` wraps around, so the remaining
time returned is negative and is not 24 hours − (N − L); for the record
9223372036854775807 `time.Unix` wraps and the gate returns eligible although
N − L is below 24 hours. -/
theorem shouldRunWallpaperChange_far_future_record :
    shouldRunWallpaperChange sampleRwc (Time.ofUnix 1700000000)
        (stateOnly (ascii "99999999999".toList)) = (false, -9223285636854775808, none) ∧
    elapsedSince (Time.ofUnix 1700000000) 99999999999 = -98299999999000000000 ∧
    ¬ ((shouldRunWallpaperChange sampleRwc (Time.ofUnix 1700000000)
        (stateOnly (ascii "99999999999".toList))).2.1 =
      86400000000000 - elapsedSince (Time.ofUnix 1700000000) 99999999999) ∧
    ¬ (0 < (shouldRunWallpaperChange sampleRwc (Time.ofUnix 1700000000)
        (stateOnly (ascii "99999999999".toList))).2.1) ∧
    shouldRunWallpaperChange sampleRwc (Time.ofUnix 1700000000)
        (stateOnly (ascii "9223372036854775807".toList)) = (true, 0, none) ∧
    elapsedSince (Time.ofUnix 1700000000) 9223372036854775807 < 86400000000000 := by
  refine ⟨by decide, by decide, by decide, by decide, by decide, by decide⟩

/-! ## The state file round trip (C10) -/

theorem foldl_digit_ge (bs : Bytes) (n : Nat) :
    n ≤ bs.foldl (fun a b => a * 10 + (b - 48)) n := by
  induction bs generalizing n with
  | nil => exact Nat.le_refl n
  | cons b rest ih =>
    simp only [List.foldl_cons]
    exact Nat.le_trans (by omega) (ih _)

theorem formatBitsLoop_value (fuel u : Nat) (acc : Bytes) (h : u < 10 ^ (fuel + 1)) :
    (formatBitsLoop fuel u acc).foldl (fun a b => a * 10 + (b - 48)) 0 =
      acc.foldl (fun a b => a * 10 + (b - 48)) u := by
  induction fuel generalizing u acc with
  | zero =>
    simp only [formatBitsLoop, List.foldl_cons]
    have : u < 10 := by simpa using h
    congr 1
    omega
  | succ k ih =>
    unfold formatBitsLoop
    split
    · have hlt : u / 10 < 10 ^ (k + 1) := by
        rw [Nat.div_lt_iff_lt_mul (by decide)]
        rw [pow_succ] at h
        exact h
      rw [ih (u / 10) _ hlt]
      simp only [List.foldl_cons]
      congr 1
      omega
    · simp only [List.foldl_cons]
      congr 1
      omega

theorem formatBitsLoop_digits (fuel u : Nat) (acc : Bytes)
    (hacc : ∀ b ∈ acc, 48 ≤ b ∧ b ≤ 57) :
    ∀ b ∈ formatBitsLoop fuel u acc, 48 ≤ b ∧ b ≤ 57 := by
  induction fuel generalizing u acc with
  | zero =>
    intro b hb
    simp only [formatBitsLoop, List.mem_cons] at hb
    rcases hb with rfl | hb
    · omega
    · exact hacc b hb
  | succ k ih =>
    unfold formatBitsLoop
    split
    · apply ih
      intro b hb
      rcases List.mem_cons.1 hb with rfl | hb
      · omega
      · exact hacc b hb
    · intro b hb
      rcases List.mem_cons.1 hb with rfl | hb
      · omega
      · exact hacc b hb

theorem formatBitsLoop_length (fuel u : Nat) (acc : Bytes) :
    0 < (formatBitsLoop fuel u acc).length ∧
    (formatBitsLoop fuel u acc).length ≤ fuel + 1 + acc.length := by
  induction fuel generalizing u acc with
  | zero =>
    simp only [formatBitsLoop, List.length_cons]
    omega
  | succ k ih =>
    unfold formatBitsLoop
    split
    · have := ih (u / 10) ((48 + u % 10) :: acc)
      simp only [List.length_cons] at this
      omega
    · simp only [List.length_cons]
      omega

theorem parseUintLoop_digits (bs : Bytes) (n : Nat) (hd : ∀ b ∈ bs, 48 ≤ b ∧ b ≤ 57)
    (hv : bs.foldl (fun a b => a * 10 + (b - 48)) n < 18446744073709551616) :
    parseUintLoop bs n = .ok (bs.foldl (fun a b => a * 10 + (b - 48)) n) := by
  induction bs generalizing n with
  | nil => rfl
  | cons b rest ih =>
    have hb := hd b (List.mem_cons_self _ _)
    simp only [List.foldl_cons] at hv ⊢
    have hge := foldl_digit_ge rest (n * 10 + (b - 48))
    unfold parseUintLoop
    rw [if_pos hb, if_neg (by omega), if_neg (by omega)]
    exact ih _ (fun c hc => hd c (List.mem_cons_of_mem _ hc)) hv

theorem ParseUint_formatBits (u : Nat) (h : u < 18446744073709551616) :
    ParseUint (formatBitsLoop 20 u []) = .ok u := by
  have hval := formatBitsLoop_value 20 u [] (by omega)
  simp only [List.foldl_nil] at hval
  have hne : formatBitsLoop 20 u [] ≠ [] := by
    intro h0
    have := (formatBitsLoop_length 20 u []).1
    rw [h0] at this
    simp at this
  unfold ParseUint
  rw [if_neg hne, parseUintLoop_digits _ _ (formatBitsLoop_digits 20 u [] (by simp)) (by omega),
    hval]

/-- `ParseInt` reads back what `FormatInt` wrote, for every `int64`. -/
theorem ParseInt_FormatInt (v : Int) (h1 : -9223372036854775808 ≤ v)
    (h2 : v ≤ 9223372036854775807) : ParseInt (FormatInt v) = .ok v := by
  unfold FormatInt
  split
  · rename_i hneg
    simp only [ParseInt]
    rw [if_pos trivial]
    unfold parseIntSigned
    rw [ParseUint_formatBits _ (by omega)]
    have habs : (v.natAbs : Int) = -v := Int.ofNat_natAbs_of_nonpos (by omega)
    have hle : ¬ v.natAbs > 9223372036854775808 := by omega
    simp only [Bool.not_true, Bool.false_and, Bool.false_eq_true, if_false, Bool.true_and,
      decide_eq_true_eq, if_true, hle, habs, neg_neg]
    rw [if_neg (by decide)]
  · rename_i hpos
    have hdig := formatBitsLoop_digits 20 v.toNat [] (by simp)
    have hlen := (formatBitsLoop_length 20 v.toNat []).1
    cases hs : formatBitsLoop 20 v.toNat [] with
    | nil => rw [hs] at hlen; simp at hlen
    | cons c rest =>
      have hc := hdig c (by rw [hs]; exact List.mem_cons_self _ _)
      simp only [ParseInt]
      rw [if_neg (by omega), if_neg (by omega), ← hs]
      unfold parseIntSigned
      rw [ParseUint_formatBits _ (by omega)]
      simp only [Bool.not_false, Bool.true_and, decide_eq_true_eq, Bool.false_and,
        Bool.false_eq_true, if_false]
      rw [if_neg (by omega)]
      congr 1
      omega

theorem FormatInt_bytes (v : Int) :
    FormatInt v ≠ [] ∧ (FormatInt v).length ≤ 22 ∧
    ∀ b ∈ FormatInt v, b = 45 ∨ (48 ≤ b ∧ b ≤ 57) := by
  unfold FormatInt
  split
  · refine ⟨by simp, ?_, ?_⟩
    · have := (formatBitsLoop_length 20 v.natAbs []).2
      simp only [List.length_cons, List.length_nil] at this ⊢
      omega
    · intro b hb
      rcases List.mem_cons.1 hb with rfl | hb
      · exact Or.inl rfl
      · exact Or.inr (formatBitsLoop_digits 20 v.natAbs [] (by simp) b hb)
  · have hlen := formatBitsLoop_length 20 v.toNat []
    refine ⟨?_, ?_, ?_⟩
    · intro h0
      rw [h0] at hlen
      simp at hlen
    · simp only [List.length_nil] at hlen
      omega
    · intro b hb
      exact Or.inr (formatBitsLoop_digits 20 v.toNat [] (by simp) b hb)

theorem scanFirstLine_of_clean (data : Bytes) (hne : data ≠ [])
    (hclean : ∀ b ∈ data, b ≠ 10 ∧ b ≠ 13) (hlen : data.length ≤ 65535) :
    scanFirstLine data = some data := by
  have htake : data.takeWhile (fun b => b != 10) = data := by
    rw [List.takeWhile_eq_self_iff]
    intro b hb
    simpa using (hclean b hb).1
  have hcr : dropCR data = data := by
    unfold dropCR
    rw [if_neg]
    intro h
    exact (hclean 13 (List.mem_of_getLast?_eq_some h)).2 rfl
  unfold scanFirstLine
  simp only [htake, hcr, hne, if_false, lt_irrefl, hlen, if_true]

/-- The scanner returns a formatted integer whole. -/
theorem scanFirstLine_FormatInt (v : Int) : scanFirstLine (FormatInt v) = some (FormatInt v) := by
  obtain ⟨hne, hlen, hb⟩ := FormatInt_bytes v
  apply scanFirstLine_of_clean _ hne _ (by omega)
  intro b hmem
  rcases hb b hmem with h | h <;> omega

/-- A written file is found at its path. -/
theorem FS.stat_put_self (fs : FS) (p : List Char) (f : File) : (fs.put p f).stat p = some f := by
  induction fs with
  | nil => simp [FS.put, FS.stat]
  | cons e rest ih =>
    obtain ⟨q, g⟩ := e
    simp only [FS.put]
    by_cases hq : q = p
    · simp [hq, FS.stat]
    · simp [hq, FS.stat, ih]

/-- C10 (amended): the state file stores whole seconds.  For every instant T at
which `saveLastRunTime` commits (from the second second of year 1 up to internal
second 2^62) and every later instant T' with T' − ⌊T⌋ < 24 hours, where ⌊T⌋ is T
truncated to the whole second (so in particular whenever T' − T ≤ 24 hours − 1
second), `getLastRunTime` reads the record back without error as ⌊T⌋, the gate
at T' returns not-eligible with remaining 24 hours − (T' − ⌊T⌋), and `Run` at T'
is skipped: nil, no stage call, the files and the state file unchanged. -/
theorem saved_record_blocks_next_run (rwc : RedPaper) (env next : Env) (fs : FS)
    (wallpaper : Option (List Char))
    (hcreate : env.canCreate (timestampFile rwc) = true) (hwrite : env.writeOk = true)
    (hT1 : 1 ≤ env.commitNow.sec) (hT2 : env.commitNow.sec ≤ 4611686018427387904)
    (hTn1 : 0 ≤ env.commitNow.nsec) (hTn2 : env.commitNow.nsec < 1000000000)
    (hn1 : 0 ≤ next.now.nsec) (hn2 : next.now.nsec < 1000000000)
    (hlater : env.commitNow.sec * 1000000000 + env.commitNow.nsec ≤
      next.now.sec * 1000000000 + next.now.nsec)
    (hclose : (next.now.sec - env.commitNow.sec) * 1000000000 + next.now.nsec <
      86400000000000) :
    (saveLastRunTime rwc env fs).1 = none ∧
    getLastRunTime rwc (saveLastRunTime rwc env fs).2 =
      .ok { sec := env.commitNow.sec, nsec := 0 } ∧
    shouldRunWallpaperChange rwc next.now (saveLastRunTime rwc env fs).2 =
      (false, 86400000000000 -
        ((next.now.sec - env.commitNow.sec) * 1000000000 + next.now.nsec), none) ∧
    (Run rwc next (saveLastRunTime rwc env fs).2 wallpaper).err = none ∧
    (Run rwc next (saveLastRunTime rwc env fs).2 wallpaper).trace = [] ∧
    (Run rwc next (saveLastRunTime rwc env fs).2 wallpaper).fs = (saveLastRunTime rwc env fs).2 ∧
    (Run rwc next (saveLastRunTime rwc env fs).2 wallpaper).wallpaper = wallpaper := by
  have hsave : saveLastRunTime rwc env fs =
      (none, fs.put (timestampFile rwc)
        { data := FormatInt env.commitNow.Unix, readable := true }) := by
    unfold saveLastRunTime
    simp [hcreate, hwrite]
  have hunix : env.commitNow.Unix = env.commitNow.sec - 62135596800 := by
    unfold Time.Unix unixToInternal
    exact wrapInt64_eq_of_range _ (by omega) (by omega)
  have hparse : ParseInt (FormatInt env.commitNow.Unix) = .ok env.commitNow.Unix := by
    apply ParseInt_FormatInt <;> rw [hunix] <;> omega
  have hof : Time.ofUnix env.commitNow.Unix = { sec := env.commitNow.sec, nsec := 0 } := by
    unfold Time.ofUnix unixToInternal
    rw [hunix, wrapInt64_eq_of_range _ (by omega) (by omega)]
    congr 1
    omega
  have hgate : shouldRunWallpaperChange rwc next.now (saveLastRunTime rwc env fs).2 =
      (false, 86400000000000 -
        ((next.now.sec - env.commitNow.sec) * 1000000000 + next.now.nsec), none) := by
    rw [hsave]
    rw [shouldRunWallpaperChange_of_record rwc next.now _ _ _ _ (FS.stat_put_self _ _ _) rfl
      (scanFirstLine_FormatInt _) hparse, hof]
    have hz : (Time.IsZero { sec := env.commitNow.sec, nsec := 0 }) = false := by
      unfold Time.IsZero
      simp only [Bool.and_eq_false_iff, beq_eq_false_iff_ne]
      left
      omega
    rw [hz]
    simp only [Bool.false_eq_true, if_false]
    rw [Time.Sub_exact next.now { sec := env.commitNow.sec, nsec := 0 } hn1 hn2
      (by simp only; omega) (by simp only; omega) (by omega) (by omega)
      (by simp only; omega) (by simp only; omega)]
    simp only [sub_zero]
    unfold day Second
    rw [if_neg (by omega), wrapInt64_eq_of_range _ (by omega) (by omega)]
    norm_num
  refine ⟨by rw [hsave], ?_, hgate, ?_⟩
  · rw [hsave]
    unfold getLastRunTime
    simp only [FS.stat_put_self, Bool.not_true, Bool.false_eq_true, if_false,
      scanFirstLine_FormatInt, hparse, hof]
  · unfold Run
    simp [hgate]

/-- C10 one hour later: the commit at Unix second 1700000001, the next run at
1700003601; the gate answers Cooling with 23 hours remaining and the run makes
no stage call. -/
theorem saved_record_blocks_next_run_witness :
    (sampleEnv.canCreate (timestampFile sampleRwc) = true ∧ sampleEnv.writeOk = true ∧
      1 ≤ sampleEnv.commitNow.sec ∧ sampleEnv.commitNow.sec ≤ 4611686018427387904 ∧
      sampleEnv.commitNow.sec * 1000000000 + sampleEnv.commitNow.nsec ≤
        (sampleEnvAt (Time.ofUnix 1700003601)).now.sec * 1000000000 +
          (sampleEnvAt (Time.ofUnix 1700003601)).now.nsec ∧
      ((sampleEnvAt (Time.ofUnix 1700003601)).now.sec - sampleEnv.commitNow.sec) * 1000000000 +
        (sampleEnvAt (Time.ofUnix 1700003601)).now.nsec = 3600000000000) ∧
    shouldRunWallpaperChange sampleRwc (sampleEnvAt (Time.ofUnix 1700003601)).now
      (saveLastRunTime sampleRwc sampleEnv []).2 = (false, 82800000000000, none) ∧
    (Run sampleRwc (sampleEnvAt (Time.ofUnix 1700003601))
      (saveLastRunTime sampleRwc sampleEnv []).2 none).trace = [] :=
  ⟨⟨by decide, by decide, by decide, by decide, by decide, by decide⟩,
    (saved_record_blocks_next_run sampleRwc sampleEnv (sampleEnvAt (Time.ofUnix 1700003601)) []
      none (by decide) (by decide) (by decide) (by decide) (by decide) (by decide) (by decide)
      (by decide) (by decide) (by decide)).2.2.1,
    (saved_record_blocks_next_run sampleRwc sampleEnv (sampleEnvAt (Time.ofUnix 1700003601)) []
      none (by decide) (by decide) (by decide) (by decide) (by decide) (by decide) (by decide)
      (by decide) (by decide) (by decide)).2.2.2.2.1⟩

/-- C10 as stated fails at nanosecond resolution: a commit at T = Unix second
1700000000 plus 0.5 s writes the record 1700000000; at T' = T + 23 h 59 min
59.7 s (Unix second 1700086400 plus 0.2 s) less than 24 hours have passed since
T, yet the gate measures 24 h 0.2 s from the record and returns eligible, and
`Run` is not skipped. -/
theorem saved_record_truncates_to_seconds :
    ((63835683200 : Int) * 1000000000 + 200000000) - (63835596800 * 1000000000 + 500000000) =
      86399700000000 ∧
    (86399700000000 : Int) < 86400000000000 ∧
    (saveLastRunTime sampleRwc
      (sampleEnvCommitting { sec := 63835596800, nsec := 500000000 }) []).1 = none ∧
    (saveLastRunTime sampleRwc
      (sampleEnvCommitting { sec := 63835596800, nsec := 500000000 }) []).2 =
      stateOnly (ascii "1700000000".toList) ∧
    shouldRunWallpaperChange sampleRwc { sec := 63835683200, nsec := 200000000 }
      (saveLastRunTime sampleRwc
        (sampleEnvCommitting { sec := 63835596800, nsec := 500000000 }) []).2 =
      (true, 0, none) ∧
    (Run sampleRwc (sampleEnvAt { sec := 63835683200, nsec := 200000000 })
      (saveLastRunTime sampleRwc
        (sampleEnvCommitting { sec := 63835596800, nsec := 500000000 }) []).2 none).trace ≠
      [] := by
  refine ⟨by decide, by decide, by decide, by decide, by decide, by decide⟩

end RedPaperMain
